import Mathlib

/-!
Verification of the JSON_Server rendering pipeline (src/main.go) against its
natural-language specification.

The embedding models the decoded JSON document exactly as Go's encoding/json
produces it for `map[string]interface\x7b\x7d`: strings, numbers, booleans,
null, arrays and objects.  A Go map is an unordered collection whose `range`
iteration order is unspecified; we model a map by the list of its entries in
the iteration order the runtime happened to choose, and quantify over
permutations of that list where a claim depends on the order.
-/

set_option maxRecDepth 100000

namespace JsonServer

/-- A decoded JSON value, as Go's encoding/json unmarshals into an
`interface` value.  Go decodes all JSON numbers to float64; the claims under
verification only exercise integral numbers, which we model as `Int`
(floating-point formatting itself is out of scope of the shallow embedding). -/
inductive Jval where
  | str (s : String)
  | num (n : Int)
  | bool (b : Bool)
  | null
  | arr (elems : List Jval)
  | obj (fields : List (String × Jval))

/-- Decimal digits of a natural number, as Go's `fmt.Sprintf("%d", n)`
produces them (no leading zeros, `0` for zero). -/
def natDigits (n : Nat) : List Char :=
  if h : n < 10 then [("0123456789".toList).getD n '0']
  else natDigits (n / 10) ++ [("0123456789".toList).getD (n % 10) '0']
termination_by n
decreasing_by
  exact Nat.div_lt_self (by omega) (by omega)

/-- Decimal rendering of an integer (Go's `%d` / json number formatting). -/
def intDec (i : Int) : String :=
  if i < 0 then "-" ++ String.mk (natDigits i.natAbs) else String.mk (natDigits i.natAbs)

/-- Space-joined rendering of a list of already rendered strings. -/
def joinSpace : List String → String
  | [] => ""
  | [s] => s
  | s :: rest => s ++ " " ++ joinSpace rest

mutual

/-- Go's `fmt.Sprintf("%v", x)` on a decoded JSON value: strings print
verbatim, numbers in decimal, booleans as `true`/`false`, nil as `<nil>`,
slices as space-separated values in brackets, and maps as
`map[k1:v1 k2:v2]`.  (Go prints map keys in sorted order; an `obj`'s field
list models the map's entries in that iteration order.) -/
def goFmtV : Jval → String
  | .str s => s
  | .num n => intDec n
  | .bool b => if b then "true" else "false"
  | .null => "<nil>"
  | .arr xs => "[" ++ goFmtList xs ++ "]"
  | .obj fs => "map[" ++ goFmtMap fs ++ "]"

/-- Elements of a slice under `%v`, space separated. -/
def goFmtList : List Jval → String
  | [] => ""
  | [x] => goFmtV x
  | x :: xs => goFmtV x ++ " " ++ goFmtList xs

/-- Entries of a map under `%v`, `key:value` space separated. -/
def goFmtMap : List (String × Jval) → String
  | [] => ""
  | [(k, v)] => k ++ ":" ++ goFmtV v
  | (k, v) :: fs => k ++ ":" ++ goFmtV v ++ " " ++ goFmtMap fs

end

/-- A compiled template: executing it on a value either yields output or an
execution error message (html/template's `Execute`).  The templating engine
itself is an external collaborator; a template is modelled by its observable
execution behaviour. -/
def Tmpl := Jval → Except String String

/-- The process-wide template set (`templates *template.Template`): named
templates, looked up by name.  `[]` models both a nil template set and an
empty one (`Lookup` finds nothing in either). -/
def Registry := List (String × Tmpl)

/-- Lookup of a named template (`templates.Lookup(name)`). -/
def lookupTmpl (reg : Registry) (name : String) : Option Tmpl :=
  match reg.find? (fun p => p.1 == name) with
  | some p => some p.2
  | none => none

/-- The fixed standard-tag set of `renderHTML` (src/main.go lines 249-256). -/
def standardTags : List String :=
  ["h1", "h2", "h3", "h4", "h5", "h6",
   "p", "div", "span", "ul", "ol", "li",
   "img", "a", "button", "input", "form",
   "table", "tr", "td", "th", "thead", "tbody",
   "section", "article", "header", "footer", "nav",
   "main", "aside", "figure", "figcaption"]

/-- Membership test `standardTags[tag]`. -/
def isStandard (tag : String) : Bool := standardTags.contains tag

/-- Whether the registry holds a template for a tag, exactly as both passes of
`renderHTML` test it: the suffixed name or the bare name. -/
def hasTemplate (reg : Registry) (tag : String) : Bool :=
  (lookupTmpl reg (tag ++ ".html")).isSome || (lookupTmpl reg tag).isSome

/-- Go map assignment `m[k] = v`: overwrite the entry if the key is present,
otherwise add it. -/
def upsert (m : List (String × Jval)) (k : String) (v : Jval) : List (String × Jval) :=
  match m with
  | [] => [(k, v)]
  | (k', v') :: rest => if k' = k then (k', v) :: rest else (k', v') :: upsert rest k v

/-- Go map lookup `m[k]` (`nil` when absent). -/
def lookupVal (m : List (String × Jval)) (k : String) : Option Jval :=
  match m.find? (fun p => p.1 == k) with
  | some p => some p.2
  | none => none

/-- The first pass of `renderHTML` over one content block: every pair whose
tag is neither standard nor matched by a template is written into the
`nonStandardData` map (src/main.go lines 261-276). -/
def collectItem (reg : Registry) (m : List (String × Jval))
    (item : List (String × Jval)) : List (String × Jval) :=
  item.foldl
    (fun m p => if !(isStandard p.1) && !(hasTemplate reg p.1) then upsert m p.1 p.2 else m)
    m

/-- The first pass of `renderHTML` over all blocks in order: the complete
`nonStandardData` map. -/
def collectNonStandard (reg : Registry) (items : List (List (String × Jval))) :
    List (String × Jval) :=
  items.foldl (collectItem reg) []


/-- One lowercase hexadecimal digit. -/
def hexDigitChar (n : Nat) : Char := ("0123456789abcdef".toList).getD n '0'

/-- Escaping of one character inside a JSON string, as Go's `json.Marshal`
performs it with its default HTML escaping on: quote and backslash are
backslash-escaped, newline, carriage return and tab use their short escapes,
other control characters become `\u00XX`, and the HTML-sensitive characters
`<`, `>`, `&` and the line separators U+2028/U+2029 become `\uXXXX` escapes. -/
def jsonEscapeChar (c : Char) : List Char :=
  if c = '"' then ['\\', '"']
  else if c = '\\' then ['\\', '\\']
  else if c = '\n' then ['\\', 'n']
  else if c = '\r' then ['\\', 'r']
  else if c = '\t' then ['\\', 't']
  else if c.toNat < 32 then
    ['\\', 'u', '0', '0', hexDigitChar (c.toNat / 16), hexDigitChar (c.toNat % 16)]
  else if c = '<' then ['\\', 'u', '0', '0', '3', 'c']
  else if c = '>' then ['\\', 'u', '0', '0', '3', 'e']
  else if c = '&' then ['\\', 'u', '0', '0', '2', '6']
  else if c.toNat = 8232 then ['\\', 'u', '2', '0', '2', '8']
  else if c.toNat = 8233 then ['\\', 'u', '2', '0', '2', '9']
  else [c]

/-- Body of a marshalled JSON string (between the quotes). -/
def jsonEscapeString (s : String) : List Char :=
  (s.toList.map jsonEscapeChar).flatten

mutual

/-- Go's `json.Marshal` on a decoded value, as the characters it emits.
(Go serialises map keys in sorted order; an `obj`'s field list models the
map's entries in that iteration order.) -/
def goJsonMarshal : Jval → List Char
  | .str s => '"' :: (jsonEscapeString s ++ ['"'])
  | .num i => (if i < 0 then ['-'] else []) ++ natDigits i.natAbs
  | .bool b => if b then ['t', 'r', 'u', 'e'] else ['f', 'a', 'l', 's', 'e']
  | .null => ['n', 'u', 'l', 'l']
  | .arr xs => '[' :: (marshalArr xs ++ [']'])
  | .obj fs => '\x7b' :: (marshalObj fs ++ ['\x7d'])

/-- Comma-separated marshalled array elements. -/
def marshalArr : List Jval → List Char
  | [] => []
  | [x] => goJsonMarshal x
  | x :: xs => goJsonMarshal x ++ ',' :: marshalArr xs

/-- Comma-separated marshalled object members. -/
def marshalObj : List (String × Jval) → List Char
  | [] => []
  | [(k, v)] => '"' :: (jsonEscapeString k ++ '"' :: ':' :: goJsonMarshal v)
  | (k, v) :: fs =>
      ('"' :: (jsonEscapeString k ++ '"' :: ':' :: goJsonMarshal v)) ++ ',' :: marshalObj fs

end

/-- One line of the injected script block:
`        customContent['tag'] = <json>;` (src/main.go line 286). -/
def scriptAssign (tag : String) (v : Jval) : String :=
  "        customContent[\x27" ++ tag ++ "\x27] = " ++ String.mk (goJsonMarshal v) ++ ";\n"

/-- The injected script block (src/main.go lines 279-290): emitted only when
`nonStandardData` is non-empty, one assignment per entry. -/
def scriptBlock (nsd : List (String × Jval)) : String :=
  if nsd.isEmpty then ""
  else
    "<script>\n        // Non-standard tag content accessible to client\n        var customContent = \x7b\x7d;\n"
      ++ String.join (nsd.map (fun p => scriptAssign p.1 p.2))
      ++ "    </script>\n"

/-- The fixed document head `renderHTML` starts from (src/main.go
lines 236-246): doctype, meta tags, title and the inline base stylesheet.
It is a constant: nothing from `flags` is interpolated into it. -/
def htmlStartBase : String :=
  "<!DOCTYPE html>\n<html lang=\"en\">\n<head>\n    <meta charset=\"UTF-8\">\n    <meta name=\"viewport\" content=\"width=device-width, initial-scale=1.0\">\n    <title>JSON Server</title>\n    <style>\n        body \x7b font-family: sans-serif; line-height: 1.6; padding: 20px; max-width: 800px; margin: 0 auto; \x7d\n        img \x7b max-width: 100%; height: auto; \x7d\n    </style>\n"

/-- The extra style block appended when the server runs in AI-design mode
(src/main.go lines 292-308). -/
def aiStyleBlock : String :=
  "\n    <style>\n        /* AI Design Mode Base Styles */\n        body \x7b\n            background: linear-gradient(135deg, #f5f7fa 0%, #c3cfe2 100%);\n            min-height: 100vh;\n        \x7d\n        .container \x7b\n            background: rgba(255,255,255,0.8);\n            padding: 40px;\n            border-radius: 12px;\n            margin-top: 40px;\n        \x7d\n    </style>\n"

/-- Execution of a looked-up template on a value, with the per-tag error
isolation of the body loop: an execution error becomes an inline diagnostic
comment (src/main.go lines 317-328). -/
def execTemplate (t : Tmpl) (tag : String) (v : Jval) : String :=
  match t v with
  | .ok s => s
  | .error e => "<!-- Error rendering template " ++ tag ++ ": " ++ e ++ " -->"

/-- Builtin rendering of a standard tag (src/main.go lines 336-355): `img`
emits an image element with the value as its source, `ul` itemises a list
value (or wraps a scalar in a single item), and every other standard tag
emits `<tag>value</tag>` with the value's `%v` text. -/
def renderBuiltin (tag : String) (v : Jval) : String :=
  if tag = "img" then "<img src=\"" ++ goFmtV v ++ "\" alt=\"Image\">"
  else if tag = "ul" then
    "<ul>"
      ++ (match v with
          | .arr xs => String.join (xs.map (fun li => "<li>" ++ goFmtV li ++ "</li>"))
          | w => "<li>" ++ goFmtV w ++ "</li>")
      ++ "</ul>"
  else "<" ++ tag ++ ">" ++ goFmtV v ++ "</" ++ tag ++ ">"

/-- The body loop of `renderHTML` for one (tag, value) pair (src/main.go
lines 313-357): template named `tag + ".html"` first, then `tag`, then the
builtin rendering for standard tags; a non-standard tag without a template
contributes nothing to the body. -/
def renderTag (reg : Registry) (tag : String) (v : Jval) : String :=
  match lookupTmpl reg (tag ++ ".html") with
  | some t => execTemplate t tag v
  | none =>
    match lookupTmpl reg tag with
    | some t => execTemplate t tag v
    | none =>
      if !(isStandard tag) then ""
      else renderBuiltin tag v

/-- The rendered body: blocks in the order the handler supplied them, and
within each block its pairs in the order iterated. -/
def renderItems (reg : Registry) (items : List (List (String × Jval))) : String :=
  String.join (items.map (fun item => String.join (item.map (fun p => renderTag reg p.1 p.2))))

/-- The whole response `renderHTML` writes (src/main.go lines 233-360).
`flags` is a parameter of the Go function but is never read by it. -/
def renderHTML (reg : Registry) (aiDesign : Bool) (items : List (List (String × Jval)))
    (flags : Option (List (String × Jval))) : String :=
  let nsd := collectNonStandard reg items
  htmlStartBase
    ++ scriptBlock nsd
    ++ (if aiDesign then aiStyleBlock else "")
    ++ "</head><body><div class=\"container\">"
    ++ renderItems reg items
    ++ "</div></body></html>"

/-- The handler's extraction of content items (src/main.go lines 116-124):
iterating the decoded top-level map in the order the runtime chose, the
`flags` entry is skipped and every other object-valued entry becomes a
content block; non-object values are dropped. -/
def extractContentItems (entries : List (String × Jval)) : List (List (String × Jval)) :=
  entries.filterMap
    (fun p =>
      if p.1 = "flags" then none
      else
        match p.2 with
        | .obj fs => some fs
        | _ => none)

/-- The handler's extraction of the `flags` map (src/main.go lines 100-113):
present only when the top-level `flags` entry exists and is an object. -/
def extractFlags (entries : List (String × Jval)) : Option (List (String × Jval)) :=
  match lookupVal entries "flags" with
  | some (.obj fs) => some fs
  | _ => none

/-- The handler's render call on a decoded document (src/main.go lines
100-127), for a fixed template registry: extract flags, extract content
blocks, render.  `entries` is the top-level map in the iteration order the
runtime chose. -/
def handlerRender (reg : Registry) (aiDesign : Bool) (entries : List (String × Jval)) : String :=
  renderHTML reg aiDesign (extractContentItems entries) (extractFlags entries)

/-- Go's `strings.ToLower` restricted to the ASCII range the design keywords
live in (`Char.toLower` lowercases exactly the ASCII uppercase letters). -/
def toLowerGo (s : String) : String := String.mk (s.toList.map Char.toLower)

/-- Go's `strings.Contains(s, sub)`: `sub` occurs as a contiguous substring
of `s`. -/
def containsSub (s sub : String) : Bool :=
  (List.range (s.toList.length + 1)).any (fun i => sub.toList.isPrefixOf (s.toList.drop i))

/-- The style parameters `generateTemplates` derives (src/main.go
lines 174-178). -/
structure Style where
  bgColor : String
  textColor : String
  accentColor : String
  font : String
deriving DecidableEq, Repr

/-- The default style before any keyword matches. -/
def defaultStyle : Style :=
  { bgColor := "#ffffff", textColor := "#333333", accentColor := "#3498db", font := "sans-serif" }

/-- The `dark` keyword rule (src/main.go lines 180-184). -/
def styleDark (pl : String) (s : Style) : Style :=
  if containsSub pl "dark" then
    { s with bgColor := "#2c3e50", textColor := "#ecf0f1", accentColor := "#e74c3c" }
  else s

/-- The `moody` keyword rule (src/main.go lines 185-189). -/
def styleMoody (pl : String) (s : Style) : Style :=
  if containsSub pl "moody" then
    { s with bgColor := "#1a1a1a", textColor := "#dcdcdc", accentColor := "#8e44ad" }
  else s

/-- The `clean` keyword rule (src/main.go lines 190-192). -/
def styleClean (pl : String) (s : Style) : Style :=
  if containsSub pl "clean" then
    { s with font := "\x27Helvetica Neue\x27, Helvetica, Arial, sans-serif" }
  else s

/-- The `serif` keyword rule (src/main.go lines 193-195). -/
def styleSerif (pl : String) (s : Style) : Style :=
  if containsSub pl "serif" then { s with font := "Georgia, serif" } else s

/-- The style `generateTemplates` computes for a prompt: the keyword rules
applied in their fixed source order, each unconditionally overwriting the
parameters it sets. -/
def computeStyle (prompt : String) : Style :=
  styleSerif (toLowerGo prompt)
    (styleClean (toLowerGo prompt)
      (styleMoody (toLowerGo prompt)
        (styleDark (toLowerGo prompt) defaultStyle)))

/-- The h1 override template text for given accent colour and font
(src/main.go line 211). -/
def mkH1Template (accent font : String) : String :=
  "<h1 style=\"color: " ++ accent ++ "; font-family: " ++ font
    ++ "; border-bottom: 2px solid " ++ accent ++ ";\">\x7b\x7b.\x7d\x7d</h1>"

/-- The div override template text for given background and text colours
(src/main.go line 215). -/
def mkDivTemplate (bg text : String) : String :=
  "<div style=\"background: " ++ bg ++ "; color: " ++ text
    ++ "; padding: 20px; border-radius: 8px; margin: 10px 0;\">\x7b\x7b.\x7d\x7d</div>"

/-- Content of the `h1.html` file `generateTemplates` writes for a prompt. -/
def h1Template (prompt : String) : String :=
  mkH1Template (computeStyle prompt).accentColor (computeStyle prompt).font

/-- Content of the `div.html` file `generateTemplates` writes for a prompt. -/
def divTemplate (prompt : String) : String :=
  mkDivTemplate (computeStyle prompt).bgColor (computeStyle prompt).textColor

/-- A 32-bit truncation. -/
def w32 (n : Nat) : Nat := n % 4294967296

/-- Left rotation of a 32-bit word. -/
def rotl32 (x s : Nat) : Nat := w32 (x * 2 ^ s) + x / 2 ^ (32 - s)

/-- Bitwise complement of a 32-bit word. -/
def not32 (x : Nat) : Nat := 4294967295 - x

/-- The per-round shift amounts of MD5. -/
def md5S : List Nat :=
  [7, 12, 17, 22, 7, 12, 17, 22, 7, 12, 17, 22, 7, 12, 17, 22,
   5, 9, 14, 20, 5, 9, 14, 20, 5, 9, 14, 20, 5, 9, 14, 20,
   4, 11, 16, 23, 4, 11, 16, 23, 4, 11, 16, 23, 4, 11, 16, 23,
   6, 10, 15, 21, 6, 10, 15, 21, 6, 10, 15, 21, 6, 10, 15, 21]

/-- The sine-derived round constants of MD5. -/
def md5K : List Nat :=
  [3614090360, 3905402710, 606105819, 3250441966, 4118548399, 1200080426, 2821735955, 4249261313,
   1770035416, 2336552879, 4294925233, 2304563134, 1804603682, 4254626195, 2792965006, 1236535329,
   4129170786, 3225465664, 643717713, 3921069994, 3593408605, 38016083, 3634488961, 3889429448,
   568446438, 3275163606, 4107603335, 1163531501, 2850285829, 4243563512, 1735328473, 2368359562,
   4294588738, 2272392833, 1839030562, 4259657740, 2763975236, 1272893353, 4139469664, 3200236656,
   681279174, 3936430074, 3572445317, 76029189, 3654602809, 3873151461, 530742520, 3299628645,
   4096336452, 1126891415, 2878612391, 4237533241, 1700485571, 2399980690, 4293915773, 2240044497,
   1873313359, 4264355552, 2734768916, 1309151649, 4149444226, 3174756917, 718787259, 3951481745]

/-- Little-endian bytes of a 64-bit length field. -/
def le8 (n : Nat) : List Nat :=
  [n % 256, n / 2 ^ 8 % 256, n / 2 ^ 16 % 256, n / 2 ^ 24 % 256,
   n / 2 ^ 32 % 256, n / 2 ^ 40 % 256, n / 2 ^ 48 % 256, n / 2 ^ 56 % 256]

/-- Little-endian bytes of a 32-bit word. -/
def le4 (n : Nat) : List Nat := [n % 256, n / 256 % 256, n / 65536 % 256, n / 16777216 % 256]

/-- MD5 padding: a 1-bit, zeros to 56 mod 64, then the bit length in 64 bits
little-endian. -/
def md5Pad (msg : List Nat) : List Nat :=
  msg ++ 128 :: List.replicate ((120 - (msg.length + 1) % 64) % 64) 0
    ++ le8 (msg.length * 8 % 2 ^ 64)

/-- The byte list split into 64-byte chunks. -/
def chunks64 (l : List Nat) : List (List Nat) :=
  if l.isEmpty then [] else l.take 64 :: chunks64 (l.drop 64)
termination_by l.length
decreasing_by
  rename_i h
  rw [List.isEmpty_iff] at h
  have hl : 0 < l.length := List.length_pos.mpr (by simpa using h)
  simp only [List.length_drop]
  omega

/-- The 16 little-endian message words of one 64-byte chunk. -/
def chunkWords (chunk : List Nat) : List Nat :=
  (List.range 16).map (fun j =>
    chunk.getD (4 * j) 0 + chunk.getD (4 * j + 1) 0 * 256
      + chunk.getD (4 * j + 2) 0 * 65536 + chunk.getD (4 * j + 3) 0 * 16777216)

/-- One MD5 round on the running state. -/
def md5Round (M : List Nat) (st : Nat × Nat × Nat × Nat) (i : Nat) : Nat × Nat × Nat × Nat :=
  let a := st.1
  let b := st.2.1
  let c := st.2.2.1
  let d := st.2.2.2
  let fg : Nat × Nat :=
    if i < 16 then (w32 ((b.land c).lor ((not32 b).land d)), i)
    else if i < 32 then (w32 ((d.land b).lor ((not32 d).land c)), (5 * i + 1) % 16)
    else if i < 48 then (w32 ((b.xor c).xor d), (3 * i + 5) % 16)
    else (w32 (c.xor (b.lor (not32 d))), 7 * i % 16)
  let f := w32 (fg.1 + a + md5K.getD i 0 + M.getD fg.2 0)
  (d, w32 (b + rotl32 f (md5S.getD i 0)), b, c)

/-- Processing of one 64-byte chunk. -/
def md5Chunk (st : Nat × Nat × Nat × Nat) (chunk : List Nat) : Nat × Nat × Nat × Nat :=
  let r := (List.range 64).foldl (md5Round (chunkWords chunk)) st
  (w32 (st.1 + r.1), w32 (st.2.1 + r.2.1), w32 (st.2.2.1 + r.2.2.1), w32 (st.2.2.2 + r.2.2.2))

/-- The four final state words of MD5 over a byte message. -/
def md5Digest (msg : List Nat) : Nat × Nat × Nat × Nat :=
  (chunks64 (md5Pad msg)).foldl md5Chunk (1732584193, 4023233417, 2562383102, 271733878)

/-- The 16 digest bytes of MD5. -/
def md5Bytes (msg : List Nat) : List Nat :=
  le4 (md5Digest msg).1 ++ le4 (md5Digest msg).2.1
    ++ le4 (md5Digest msg).2.2.1 ++ le4 (md5Digest msg).2.2.2

/-- Two lowercase hex characters of one byte (`hex.EncodeToString`). -/
def byteHex (b : Nat) : List Char := [hexDigitChar (b / 16 % 16), hexDigitChar (b % 16)]

/-- Lowercase hex encoding of the MD5 digest of a byte message. -/
def md5Hex (msg : List Nat) : String := String.mk ((md5Bytes msg).map byteHex).flatten

/-- The UTF-8 bytes of a string. -/
def strBytes (s : String) : List Nat := s.toUTF8.toList.map (fun b => b.toNat)

/-- Go's `generateUUID` (src/main.go lines 222-231): the MD5 hex digest of
the decimal process id.  It takes nothing but the process id, so within one
process every call returns the same 32-character string. -/
def generateUUID (pid : Nat) : String :=
  md5Hex (strBytes (String.mk (natDigits pid)))

/-- Go's `strings.TrimSpace` (leading and trailing whitespace removed);
`String.trim` trims the same ASCII whitespace the cached prompts contain. -/
def goTrim (s : String) : String :=
  String.mk (((s.toList.dropWhile Char.isWhitespace).reverse.dropWhile Char.isWhitespace).reverse)

/-- The on-disk design cache (`components/cached`): one directory per design,
holding the raw prompt text of its `prompt.txt`.  Records are listed in the
name-sorted order `ioutil.ReadDir` returns.  (Each directory also holds the
generated `h1.html` and `div.html`, whose contents are the pure functions
`h1Template`/`divTemplate` of the stored prompt.) -/
structure CacheState where
  records : List (String × String)

/-- Whether a cache directory of the given name exists (`os.Stat`). -/
def dirExists (st : CacheState) (name : String) : Bool :=
  st.records.any (fun r => r.1 == name)

/-- Directory creation plus prompt write (`os.MkdirAll` + `ioutil.WriteFile`):
`MkdirAll` succeeds when the directory already exists, and the write then
overwrites its `prompt.txt`; a new name is inserted at its sorted position. -/
def insertRecord (name content : String) : List (String × String) → List (String × String)
  | [] => [(name, content)]
  | r :: rs =>
    if name = r.1 then (name, content) :: rs
    else if name < r.1 then (name, content) :: r :: rs
    else r :: insertRecord name content rs

/-- The scan of step 2 of `getOrGenerateDesign` (src/main.go lines 142-152):
the first cached directory whose trimmed `prompt.txt` equals the trimmed
prompt. -/
def findPromptMatch (st : CacheState) (prompt : String) : Option (String × String) :=
  st.records.find? (fun r => goTrim r.2 == goTrim prompt)

/-- Go's `getOrGenerateDesign` (src/main.go lines 129-169) on the cache
state: the 32-byte-identifier fast path, then the prompt scan, then fresh
generation under `generateUUID()`.  File-system errors are not modelled (the
claims concern successful resolutions). -/
def getOrGenerateDesign (pid : Nat) (st : CacheState) (prompt : String) : String × CacheState :=
  if prompt.utf8ByteSize == 32 && dirExists st prompt then (prompt, st)
  else
    match findPromptMatch st prompt with
    | some r => (r.1, st)
    | none =>
      let u := generateUUID pid
      (u, ⟨insertRecord u prompt st.records⟩)

/-- The three-way rendering decision for one tag, as the spec's TagResolver
contract states it. -/
inductive RenderAction where
  | useTemplate (name : String)
  | useBuiltin
  | injectAsData
deriving DecidableEq, Repr, BEq

/-- The decision structure of the body loop of `renderHTML` (src/main.go
lines 313-355): suffixed template lookup, bare template lookup, standard-tag
test, skip. -/
def resolveTag (reg : Registry) (tag : String) : RenderAction :=
  match lookupTmpl reg (tag ++ ".html") with
  | some _ => .useTemplate (tag ++ ".html")
  | none =>
    match lookupTmpl reg tag with
    | some _ => .useTemplate tag
    | none => if isStandard tag then .useBuiltin else .injectAsData

/-- The spec's wording of the resolution contract, stated independently for
comparison: template named `tag + ".html"` first (the suffixed name wins when
both exist), then template named `tag`, then builtin for standard tags,
otherwise the client-side data channel. -/
def resolveSpec (reg : Registry) (tag : String) : RenderAction :=
  if (lookupTmpl reg (tag ++ ".html")).isSome then .useTemplate (tag ++ ".html")
  else if (lookupTmpl reg tag).isSome then .useTemplate tag
  else if isStandard tag then .useBuiltin
  else .injectAsData

/-- Rendering dispatched on a resolved action. -/
def applyAction (reg : Registry) (a : RenderAction) (tag : String) (v : Jval) : String :=
  match a with
  | .useTemplate n =>
    match lookupTmpl reg n with
    | some t => execTemplate t tag v
    | none => ""
  | .useBuiltin => renderBuiltin tag v
  | .injectAsData => ""

theorem goFmtV_str (s : String) : goFmtV (.str s) = s := by
  simp [goFmtV]

/-- Claim C3: for every (tag, value) pair the body loop's decision follows
the strict precedence of the spec's TagResolver contract — template named
`tag + ".html"` first, then template named exactly `tag` (so the suffixed
name wins when both exist), then builtin rendering for members of the fixed
standard-tag set, and otherwise the pair contributes nothing to the body and
is exactly what the first pass collects for the client-side script channel. -/
theorem c3_resolution_precedence (reg : Registry) (tag : String) (v : Jval) :
    resolveTag reg tag = resolveSpec reg tag
    ∧ renderTag reg tag v = applyAction reg (resolveTag reg tag) tag v
    ∧ (!(isStandard tag) && !(hasTemplate reg tag))
        = (resolveTag reg tag == RenderAction.injectAsData) := by
  cases h1 : lookupTmpl reg (tag ++ ".html") with
  | some t =>
    simp [resolveTag, resolveSpec, renderTag, applyAction, hasTemplate, h1]
    rfl
  | none =>
    cases h2 : lookupTmpl reg tag with
    | some t =>
      simp [resolveTag, resolveSpec, renderTag, applyAction, hasTemplate, h1, h2]
      rfl
    | none =>
      by_cases hs : isStandard tag
        <;> simp [resolveTag, resolveSpec, renderTag, applyAction, hasTemplate, h1, h2, hs]
        <;> rfl

/-- Claim C4 fails on the code: builtin rendering inserts the scalar text
verbatim, so a value containing `<`, `>` and `&` appears unescaped in the
emitted markup, and its escaped form appears nowhere. -/
theorem c4_escaping_counterexample :
    renderTag [] "p" (.str "a<b&c>d") = "<p>a<b&c>d</p>"
    ∧ containsSub (renderTag [] "p" (.str "a<b&c>d")) "&lt;" = false
    ∧ containsSub (renderTag [] "p" (.str "a<b&c>d")) "&amp;" = false := by
  refine ⟨by decide, by decide, by decide⟩

/-- Claim C4 as amended: for every builtin-rendered standard tag other than
`img` and `ul`, the scalar value's display text is inserted verbatim into
`<tag>...</tag>` — no HTML escaping is applied, so characters such as `<`,
`>` and `&` reach the response body unchanged. -/
theorem c4_verbatim_insertion (reg : Registry) (tag : String) (s : String)
    (hstd : isStandard tag = true) (hnt : hasTemplate reg tag = false)
    (himg : tag ≠ "img") (hul : tag ≠ "ul") :
    renderTag reg tag (.str s) = "<" ++ tag ++ ">" ++ s ++ "</" ++ tag ++ ">" := by
  have h1 : lookupTmpl reg (tag ++ ".html") = none := by
    unfold hasTemplate at hnt
    cases h : lookupTmpl reg (tag ++ ".html") with
    | some t => rw [h] at hnt; simp at hnt
    | none => rfl
  have h2 : lookupTmpl reg tag = none := by
    unfold hasTemplate at hnt
    cases h : lookupTmpl reg tag with
    | some t => rw [h] at hnt; simp at hnt
    | none => rfl
  simp [renderTag, h1, h2, hstd, renderBuiltin, himg, hul, goFmtV_str]

theorem c4_verbatim_insertion_witness :
    renderTag [] "p" (.str "x<y&z") = "<p>x<y&z</p>" := by
  have h := c4_verbatim_insertion [] "p" "x<y&z" (by decide) (by rfl) (by decide) (by decide)
  simpa using h

theorem styleClean_colors (pl : String) (s : Style) :
    (styleClean pl s).bgColor = s.bgColor
    ∧ (styleClean pl s).textColor = s.textColor
    ∧ (styleClean pl s).accentColor = s.accentColor := by
  unfold styleClean
  split <;> simp

theorem styleSerif_colors (pl : String) (s : Style) :
    (styleSerif pl s).bgColor = s.bgColor
    ∧ (styleSerif pl s).textColor = s.textColor
    ∧ (styleSerif pl s).accentColor = s.accentColor := by
  unfold styleSerif
  split <;> simp

/-- Claim C7: for every design prompt matched by more than one style
keyword, the keyword tested later in the fixed vocabulary order (dark,
moody, clean, serif) wins for any style parameter both keywords set.  The
only parameter-sharing pairs in the vocabulary are dark/moody (background,
text and accent colour) and clean/serif (font), so the claim is exactly the
conjunction below: a prompt matching both "dark" and "moody" gets the
"moody" rule's three colours in the generated templates, and a prompt
matching both "clean" and "serif" gets the "serif" rule's font. -/
theorem c7_later_keyword_wins (prompt : String) :
    (containsSub (toLowerGo prompt) "dark" = true →
      containsSub (toLowerGo prompt) "moody" = true →
      (computeStyle prompt).bgColor = "#1a1a1a"
      ∧ (computeStyle prompt).textColor = "#dcdcdc"
      ∧ (computeStyle prompt).accentColor = "#8e44ad"
      ∧ h1Template prompt = mkH1Template "#8e44ad" (computeStyle prompt).font
      ∧ divTemplate prompt = mkDivTemplate "#1a1a1a" "#dcdcdc")
    ∧ (containsSub (toLowerGo prompt) "clean" = true →
      containsSub (toLowerGo prompt) "serif" = true →
      (computeStyle prompt).font = "Georgia, serif"
      ∧ h1Template prompt
          = mkH1Template (computeStyle prompt).accentColor "Georgia, serif") := by
  constructor
  · intro hdark hmoody
    have hm : styleMoody (toLowerGo prompt) (styleDark (toLowerGo prompt) defaultStyle)
        = { styleDark (toLowerGo prompt) defaultStyle with
              bgColor := "#1a1a1a", textColor := "#dcdcdc", accentColor := "#8e44ad" } := by
      unfold styleMoody
      rw [hmoody]
      simp
    have hbg : (computeStyle prompt).bgColor = "#1a1a1a" := by
      unfold computeStyle
      rw [(styleSerif_colors _ _).1, (styleClean_colors _ _).1, hm]
    have htx : (computeStyle prompt).textColor = "#dcdcdc" := by
      unfold computeStyle
      rw [(styleSerif_colors _ _).2.1, (styleClean_colors _ _).2.1, hm]
    have hac : (computeStyle prompt).accentColor = "#8e44ad" := by
      unfold computeStyle
      rw [(styleSerif_colors _ _).2.2, (styleClean_colors _ _).2.2, hm]
    refine ⟨hbg, htx, hac, ?_, ?_⟩
    · unfold h1Template
      rw [hac]
    · unfold divTemplate
      rw [hbg, htx]
  · intro hclean hserif
    have hfont : (computeStyle prompt).font = "Georgia, serif" := by
      unfold computeStyle styleSerif
      rw [hserif]
      simp
    refine ⟨hfont, ?_⟩
    unfold h1Template
    rw [hfont]

theorem c7_later_keyword_wins_witness :
    (computeStyle "dark moody clean serif").bgColor = "#1a1a1a"
    ∧ (computeStyle "dark moody clean serif").textColor = "#dcdcdc"
    ∧ (computeStyle "dark moody clean serif").accentColor = "#8e44ad"
    ∧ (computeStyle "dark moody clean serif").font = "Georgia, serif" := by
  have h := c7_later_keyword_wins "dark moody clean serif"
  have h1 := h.1 (by decide) (by decide)
  have h2 := h.2 (by decide) (by decide)
  exact ⟨h1.1, h1.2.1, h1.2.2.1, h2.1⟩

/-- Claim C2: no byte of `flags` reaches the emitted response.  First,
`renderHTML` never reads its `flags` argument, so the response bytes are a
function of the content blocks and the template registry alone; second, the
handler's content extraction drops the `flags` entry, so no flags data is
among the rendered blocks; third, the only influence `flags` has on the
process — the design prompt driving template generation — produces style
parameters drawn from a fixed finite set of colour and font constants, never
from the prompt's text. -/
theorem c2_flags_never_emitted :
    (∀ (reg : Registry) (ai : Bool) (items : List (List (String × Jval)))
        (f1 f2 : Option (List (String × Jval))),
      renderHTML reg ai items f1 = renderHTML reg ai items f2)
    ∧ (∀ entries : List (String × Jval),
        extractContentItems entries
          = extractContentItems (entries.filter (fun p => !(p.1 == "flags"))))
    ∧ (∀ prompt : String,
        (computeStyle prompt).bgColor ∈ ["#ffffff", "#2c3e50", "#1a1a1a"]
        ∧ (computeStyle prompt).textColor ∈ ["#333333", "#ecf0f1", "#dcdcdc"]
        ∧ (computeStyle prompt).accentColor ∈ ["#3498db", "#e74c3c", "#8e44ad"]
        ∧ (computeStyle prompt).font
            ∈ ["sans-serif", "\x27Helvetica Neue\x27, Helvetica, Arial, sans-serif",
               "Georgia, serif"]) := by
  refine ⟨fun reg ai items f1 f2 => rfl, fun entries => ?_, fun prompt => ?_⟩
  · induction entries with
    | nil => rfl
    | cons p rest ih =>
      by_cases h : p.1 = "flags"
      · have l1 : extractContentItems (p :: rest) = extractContentItems rest := by
          simp [extractContentItems, List.filterMap_cons, h]
        have l2 : (p :: rest).filter (fun q => !(q.1 == "flags"))
            = rest.filter (fun q => !(q.1 == "flags")) := by
          simp [List.filter_cons, h]
        rw [l1, l2]
        exact ih
      · have l1 : (p :: rest).filter (fun q => !(q.1 == "flags"))
            = p :: rest.filter (fun q => !(q.1 == "flags")) := by
          simp [List.filter_cons, h]
        rw [l1]
        simp only [extractContentItems, List.filterMap_cons] at ih ⊢
        rw [ih]
  · unfold computeStyle styleSerif styleClean styleMoody styleDark
    split <;> split <;> split <;> split <;> simp [defaultStyle]

/-- A document whose two content blocks appear in source order: block "1"
(output `<h1>First Section</h1>`) before block "2" (output
`<h1>Second Section</h1>`). -/
def c1Doc : List (String × Jval) :=
  [("1", .obj [("h1", .str "First Section")]),
   ("2", .obj [("h1", .str "Second Section")])]

/-- The same document as the Go runtime may iterate it: `range` over
`map[string]interface` values visits keys in an unspecified order, so the
handler may see block "2" first. -/
def c1Iter : List (String × Jval) :=
  [("2", .obj [("h1", .str "Second Section")]),
   ("1", .obj [("h1", .str "First Section")])]

/-- Claim C1 fails on the code: the handler ranges over the decoded
`map[string]interface` document, whose iteration order is unspecified, so a
legal iteration order (a permutation of the source entries) renders block
"2"'s output entirely before block "1"'s — source order is not preserved. -/
theorem c1_order_not_preserved :
    c1Iter.Perm c1Doc
    ∧ handlerRender [] false c1Iter
        = htmlStartBase ++ "</head><body><div class=\"container\">"
            ++ "<h1>Second Section</h1>" ++ "<h1>First Section</h1>"
            ++ "</div></body></html>" := by
  constructor
  · exact List.Perm.swap _ _ _
  · rfl

/-- A document whose `flags.csslib` names the recognized framework
`bootstrap`. -/
def c8Doc : List (String × Jval) :=
  [("flags", .obj [("csslib", .str "bootstrap")]),
   ("1", .obj [("h1", .str "Title")])]

/-- The same document without any `flags` entry. -/
def c8DocNoFlags : List (String × Jval) :=
  [("1", .obj [("h1", .str "Title")])]

/-- Claim C8 fails on the code: `renderHTML` in src/main.go builds a fixed
head and never reads `flags`, so `flags.csslib = "bootstrap"` changes
nothing and no framework tag (no CDN link or script, no occurrence of
"bootstrap" at all) appears in the emitted document. -/
theorem c8_csslib_never_emitted :
    handlerRender [] false c8Doc = handlerRender [] false c8DocNoFlags
    ∧ containsSub (handlerRender [] false c8Doc) "bootstrap" = false
    ∧ containsSub (handlerRender [] false c8Doc) "cdn" = false := by
  refine ⟨rfl, by decide, by decide⟩

/-- Sequential Go map assignment of a list of pairs. -/
def foldUpsert (m : List (String × Jval)) (ps : List (String × Jval)) : List (String × Jval) :=
  ps.foldl (fun m p => upsert m p.1 p.2) m

theorem lookupVal_cons (r : String × Jval) (rest : List (String × Jval)) (k : String) :
    lookupVal (r :: rest) k = if r.1 = k then some r.2 else lookupVal rest k := by
  unfold lookupVal
  by_cases h : r.1 = k
  · rw [List.find?_cons_of_pos _ (by simp [h])]
    simp [h]
  · rw [List.find?_cons_of_neg _ (by simp [h])]
    simp [h]

theorem lookupVal_upsert (m : List (String × Jval)) (k : String) (v : Jval) (k' : String) :
    lookupVal (upsert m k v) k' = if k = k' then some v else lookupVal m k' := by
  induction m with
  | nil =>
    by_cases h : k = k' <;> simp [upsert, lookupVal_cons, lookupVal, h]
  | cons r rest ih =>
    simp only [upsert]
    by_cases h : r.1 = k
    · simp only [if_pos h, lookupVal_cons]
      by_cases h2 : k = k' <;> simp_all
    · simp only [if_neg h, lookupVal_cons, ih]
      by_cases h2 : r.1 = k' <;> by_cases h3 : k = k' <;> simp_all

theorem getLast?_cons_eq {α : Type} (a : α) (l : List α) :
    (a :: l).getLast? = match l.getLast? with | some x => some x | none => some a := by
  induction l generalizing a with
  | nil => simp
  | cons b l ih =>
    rw [List.getLast?_cons_cons, ih b]
    cases hl : l.getLast? with
    | some x => simp
    | none => simp

theorem lookupVal_foldUpsert (ps m : List (String × Jval)) (k : String) :
    lookupVal (foldUpsert m ps) k
      = match ((ps.filter (fun p => p.1 == k)).map Prod.snd).getLast? with
        | some v => some v
        | none => lookupVal m k := by
  induction ps generalizing m with
  | nil => simp [foldUpsert]
  | cons p rest ih =>
    have step : foldUpsert m (p :: rest) = foldUpsert (upsert m p.1 p.2) rest := rfl
    rw [step, ih]
    by_cases h : p.1 = k
    · simp only [List.filter_cons, h, beq_self_eq_true, if_pos, List.map_cons]
      rw [getLast?_cons_eq]
      cases hl : ((rest.filter (fun p => p.1 == k)).map Prod.snd).getLast? with
      | some v => simp
      | none => simp [lookupVal_upsert, h]
    · have hb : (p.1 == k) = false := by simp [h]
      simp only [List.filter_cons, hb, Bool.false_eq_true, if_neg, ite_false]
      cases hl : ((rest.filter (fun p => p.1 == k)).map Prod.snd).getLast? with
      | some v => simp
      | none => simp [lookupVal_upsert, h]

theorem keys_upsert (m : List (String × Jval)) (k : String) (v : Jval) :
    (upsert m k v).map Prod.fst
      = if k ∈ m.map Prod.fst then m.map Prod.fst else m.map Prod.fst ++ [k] := by
  induction m with
  | nil => simp [upsert]
  | cons r rest ih =>
    simp only [upsert]
    by_cases h : r.1 = k
    · simp [h]
    · simp only [if_neg h, List.map_cons, ih, List.mem_cons]
      by_cases h2 : k ∈ rest.map Prod.fst
      · simp [h2, Ne.symm h]
      · simp [h2, Ne.symm h]

theorem nodupKeys_upsert (m : List (String × Jval)) (k : String) (v : Jval)
    (h : (m.map Prod.fst).Nodup) : ((upsert m k v).map Prod.fst).Nodup := by
  rw [keys_upsert]
  by_cases h2 : k ∈ m.map Prod.fst
  · simpa [h2] using h
  · simp only [h2, if_false]
    simp [List.nodup_append, h, h2]

theorem nodupKeys_foldUpsert (ps m : List (String × Jval))
    (h : (m.map Prod.fst).Nodup) : ((foldUpsert m ps).map Prod.fst).Nodup := by
  induction ps generalizing m with
  | nil => exact h
  | cons p rest ih => exact ih _ (nodupKeys_upsert _ _ _ h)

theorem filter_key_eq_nil (m : List (String × Jval)) (k : String)
    (h : k ∉ m.map Prod.fst) : m.filter (fun p => p.1 == k) = [] := by
  induction m with
  | nil => rfl
  | cons r rest ih =>
    simp only [List.map_cons, List.mem_cons] at h
    push_neg at h
    simp [List.filter_cons, Ne.symm h.1, ih h.2]

theorem countKey_nodup (m : List (String × Jval)) (k : String)
    (h : (m.map Prod.fst).Nodup) :
    (m.filter (fun p => p.1 == k)).length = if (lookupVal m k).isSome then 1 else 0 := by
  induction m with
  | nil => simp [lookupVal]
  | cons r rest ih =>
    simp only [List.map_cons, List.nodup_cons] at h
    by_cases hr : r.1 = k
    · have hnil : rest.filter (fun p => p.1 == k) = [] := by
        apply filter_key_eq_nil
        rw [← hr]
        exact h.1
      simp [List.filter_cons, hr, hnil, lookupVal_cons]
    · simp [List.filter_cons, hr, ih h.2, lookupVal_cons]

theorem collectItem_eq (reg : Registry) (m item : List (String × Jval)) :
    collectItem reg m item
      = foldUpsert m (item.filter (fun p => !(isStandard p.1) && !(hasTemplate reg p.1))) := by
  induction item generalizing m with
  | nil => rfl
  | cons p rest ih =>
    show (p :: rest).foldl _ m = _
    rw [List.foldl_cons]
    by_cases h : (!(isStandard p.1) && !(hasTemplate reg p.1)) = true
    · simp only [h, if_true, List.filter_cons]
      exact ih _
    · have h' : (!(isStandard p.1) && !(hasTemplate reg p.1)) = false := by
        revert h
        cases (!(isStandard p.1) && !(hasTemplate reg p.1)) <;> simp
      simp only [h', Bool.false_eq_true, if_false, List.filter_cons, ite_false]
      exact ih _

theorem collectNonStandard_eq (reg : Registry) (items : List (List (String × Jval))) :
    collectNonStandard reg items
      = foldUpsert []
          (items.flatten.filter (fun p => !(isStandard p.1) && !(hasTemplate reg p.1))) := by
  suffices h : ∀ m, items.foldl (collectItem reg) m
      = foldUpsert m (items.flatten.filter (fun p => !(isStandard p.1) && !(hasTemplate reg p.1)))
    from h []
  induction items with
  | nil => intro m; simp [foldUpsert]
  | cons item rest ih =>
    intro m
    rw [List.foldl_cons, ih, collectItem_eq, List.flatten_cons, List.filter_append]
    exact (List.foldl_append _ _ _ _).symm

theorem filter_cond_key (l : List (String × Jval)) (reg : Registry) (tag : String) :
    (l.filter (fun p => !(isStandard p.1) && !(hasTemplate reg p.1))).filter
        (fun p => p.1 == tag)
      = if !(isStandard tag) && !(hasTemplate reg tag) then
          l.filter (fun p => p.1 == tag)
        else [] := by
  induction l with
  | nil => split <;> rfl
  | cons p rest ih =>
    simp only [List.filter_cons]
    by_cases hk : p.1 = tag
    · have hcond : (!(isStandard p.1) && !(hasTemplate reg p.1))
          = (!(isStandard tag) && !(hasTemplate reg tag)) := by rw [hk]
      rw [hcond]
      cases hc : (!(isStandard tag) && !(hasTemplate reg tag)) with
      | true => simp [List.filter_cons, hk, ih, hc]
      | false => simp [ih, hc]
    · cases hc : (!(isStandard p.1) && !(hasTemplate reg p.1)) with
      | true => simp [List.filter_cons, hk, ih]
      | false => simp [List.filter_cons, hk, ih]

/-- The value the claim predicts for a tag in the side channel: if the tag is
non-standard and has no template, the value of its last occurrence across the
blocks in the renderer's iteration order; otherwise nothing. -/
def lastNonStdValue (reg : Registry) (items : List (List (String × Jval)))
    (tag : String) : Option Jval :=
  if !(isStandard tag) && !(hasTemplate reg tag) then
    ((items.flatten.filter (fun p => p.1 == tag)).map Prod.snd).getLast?
  else none

/-- How many entries of the `nonStandardData` map carry a given tag — and
therefore how many `customContent['tag'] = ...;` lines the script block
emits for it, since `scriptBlock` emits exactly one line per entry. -/
def countKey (m : List (String × Jval)) (tag : String) : Nat :=
  (m.filter (fun p => p.1 == tag)).length

/-- Claim C5 as amended: when the same non-standard tag occurs in several
blocks, the script block assigns `customContent[tag]` exactly once, to the
value of the tag's last occurrence in the order the renderer iterates the
blocks (the handler supplies the blocks in unspecified Go-map iteration
order, so this need not be source-document order), and earlier occurrences
produce no additional entries and no error. -/
theorem c5_last_write_wins (reg : Registry) (items : List (List (String × Jval)))
    (tag : String) :
    lookupVal (collectNonStandard reg items) tag = lastNonStdValue reg items tag
    ∧ countKey (collectNonStandard reg items) tag
        = (if (lastNonStdValue reg items tag).isSome then 1 else 0) := by
  have h1 : lookupVal (collectNonStandard reg items) tag = lastNonStdValue reg items tag := by
    rw [collectNonStandard_eq, lookupVal_foldUpsert, filter_cond_key]
    unfold lastNonStdValue
    cases hc : (!(isStandard tag) && !(hasTemplate reg tag)) with
    | true =>
      rw [if_pos rfl, if_pos rfl]
      cases hl : ((items.flatten.filter (fun p => p.1 == tag)).map Prod.snd).getLast? with
      | some v => rfl
      | none => rfl
    | false =>
      rw [if_neg (by simp), if_neg (by simp)]
      rfl
  refine ⟨h1, ?_⟩
  rw [show countKey (collectNonStandard reg items) tag
      = (if (lookupVal (collectNonStandard reg items) tag).isSome then 1 else 0) from ?_, h1]
  unfold countKey
  rw [collectNonStandard_eq]
  exact countKey_nodup _ _ (nodupKeys_foldUpsert _ _ (by simp))

/-- A document in which the non-standard tag `x` occurs in block "1" with
value "V1" and again in block "3" with value "V2" — document order makes
"V2" the last value. -/
def c5Doc : List (String × Jval) :=
  [("1", .obj [("x", .str "V1")]), ("3", .obj [("x", .str "V2")])]

/-- The same document in the reversed iteration order the Go runtime may
choose for the top-level map. -/
def c5Iter : List (String × Jval) :=
  [("3", .obj [("x", .str "V2")]), ("1", .obj [("x", .str "V1")])]

/-- Claim C5 fails on the code as stated: under a legal Go map iteration
order (a permutation of the source entries) the emitted script block assigns
`customContent['x']` the block-1 value "V1", not the value "V2" that is last
in document order. -/
theorem c5_document_order_counterexample :
    c5Iter.Perm c5Doc
    ∧ containsSub (handlerRender [] false c5Iter) "customContent[\x27x\x27] = \"V1\";" = true
    ∧ containsSub (handlerRender [] false c5Iter) "V2" = false := by
  refine ⟨List.Perm.swap _ _ _, by decide, by decide⟩

theorem find?_insertRecord (l : List (String × String)) (pred : String × String → Bool)
    (u c : String) (hnone : l.find? pred = none) (hc : pred (u, c) = true) :
    (insertRecord u c l).find? pred = some (u, c) := by
  induction l with
  | nil =>
    unfold insertRecord
    rw [List.find?_cons_of_pos _ hc]
  | cons r rs ih =>
    rw [List.find?_eq_none] at hnone
    have hr : ¬ pred r = true := hnone r (by simp)
    have hrs : rs.find? pred = none := by
      rw [List.find?_eq_none]
      exact fun x hx => hnone x (by simp [hx])
    unfold insertRecord
    by_cases h1 : u = r.1
    · rw [if_pos h1, List.find?_cons_of_pos _ hc]
    · rw [if_neg h1]
      by_cases h2 : u < r.1
      · rw [if_pos h2, List.find?_cons_of_pos _ hc]
      · rw [if_neg h2, List.find?_cons_of_neg _ hr]
        exact ih hrs

theorem any_insertRecord (l : List (String × String)) (u c x : String) :
    ((insertRecord u c l).any (fun r => r.1 == x)) = ((u == x) || l.any (fun r => r.1 == x)) := by
  induction l with
  | nil => simp [insertRecord]
  | cons r rs ih =>
    unfold insertRecord
    by_cases h1 : u = r.1
    · rw [if_pos h1]
      simp only [List.any_cons, ← h1]
      cases hux : (u == x) <;> simp
    · rw [if_neg h1]
      by_cases h2 : u < r.1
      · rw [if_pos h2]
        simp [List.any_cons]
      · rw [if_neg h2]
        simp only [List.any_cons, ih]
        cases hux : (u == x) <;> cases hrx : (r.1 == x) <;> simp

/-- Claim C6: design resolution is idempotent — resolving the same prompt a
second time after a successful first resolution returns the identifier the
first resolution returned and leaves the cache exactly as it was (no second
cache directory, no second record). -/
theorem c6_resolve_idempotent (pid : Nat) (st : CacheState) (prompt : String) :
    getOrGenerateDesign pid (getOrGenerateDesign pid st prompt).2 prompt
      = getOrGenerateDesign pid st prompt := by
  by_cases h1 : (prompt.utf8ByteSize == 32 && dirExists st prompt) = true
  · simp [getOrGenerateDesign, h1]
  · have h1f : (prompt.utf8ByteSize == 32 && dirExists st prompt) = false := by
      revert h1
      cases (prompt.utf8ByteSize == 32 && dirExists st prompt) <;> simp
    cases h2 : findPromptMatch st prompt with
    | some r =>
      simp [getOrGenerateDesign, h1f, h2]
    | none =>
      have hfst : getOrGenerateDesign pid st prompt
          = (generateUUID pid, ⟨insertRecord (generateUUID pid) prompt st.records⟩) := by
        simp [getOrGenerateDesign, h1f, h2]
      rw [hfst]
      by_cases hc2 : (prompt.utf8ByteSize == 32
          && dirExists ⟨insertRecord (generateUUID pid) prompt st.records⟩ prompt) = true
      · have hparts := Bool.and_eq_true_iff.mp hc2
        have hde : dirExists st prompt = false := by
          revert h1f
          rw [hparts.1]
          cases dirExists st prompt <;> simp
        have hpu : prompt = generateUUID pid := by
          have := hparts.2
          unfold dirExists at this hde
          rw [any_insertRecord, hde, Bool.or_false] at this
          exact (beq_iff_eq.mp this).symm
        unfold getOrGenerateDesign
        rw [if_pos hc2, hpu]
      · have hc2f : (prompt.utf8ByteSize == 32
            && dirExists ⟨insertRecord (generateUUID pid) prompt st.records⟩ prompt) = false := by
          revert hc2
          cases (prompt.utf8ByteSize == 32
            && dirExists ⟨insertRecord (generateUUID pid) prompt st.records⟩ prompt) <;> simp
        have hfind : findPromptMatch ⟨insertRecord (generateUUID pid) prompt st.records⟩ prompt
            = some (generateUUID pid, prompt) := by
          unfold findPromptMatch
          exact find?_insertRecord _ _ _ _ h2 (by simp)
        simp [getOrGenerateDesign, hc2f, hfind]

/-- The decimal digit characters of the JSON number grammar. -/
def jsonDigits : List Char := "0123456789".toList

/-- The (lowercase) hexadecimal digit characters our marshaller emits in
`\uXXXX` escapes; a subset of what the JSON grammar allows. -/
def jsonHexDigits : List Char := "0123456789abcdef".toList

/-- Syntactic validity of the body of a JSON string literal (the characters
between the quotes), following the JSON grammar: plain characters are
anything but the quote, the backslash and controls; escapes are the short
escapes or `\uXXXX` with hex digits. -/
inductive JStrBody : List Char → Prop where
  | nil : JStrBody []
  | plain (c : Char) (rest : List Char) :
      c ≠ '"' → c ≠ '\\' → 32 ≤ c.toNat → JStrBody rest → JStrBody (c :: rest)
  | esc (e : Char) (rest : List Char) :
      e ∈ ['"', '\\', '/', 'b', 'f', 'n', 'r', 't'] → JStrBody rest →
      JStrBody ('\\' :: e :: rest)
  | uesc (a b c d : Char) (rest : List Char) :
      a ∈ jsonHexDigits → b ∈ jsonHexDigits → c ∈ jsonHexDigits → d ∈ jsonHexDigits →
      JStrBody rest → JStrBody ('\\' :: 'u' :: a :: b :: c :: d :: rest)

/-- Syntactic validity of a JSON integer digit string: `0`, or a nonzero
first digit followed by digits (no leading zeros). -/
def JDigits (ds : List Char) : Prop :=
  ds = ['0'] ∨ ∃ d rest, ds = d :: rest ∧ d ∈ jsonDigits ∧ d ≠ '0'
    ∧ ∀ c ∈ rest, c ∈ jsonDigits

/-- Syntactic validity of a JSON integer literal, optionally negative. -/
inductive JNum : List Char → Prop where
  | pos (ds : List Char) : JDigits ds → JNum ds
  | neg (ds : List Char) : JDigits ds → JNum ('-' :: ds)

mutual

/-- Syntactic validity of one JSON value text, following the JSON grammar
(without insignificant whitespace, which the marshaller never emits). -/
inductive JValTxt : List Char → Prop where
  | str (body : List Char) : JStrBody body → JValTxt ('"' :: (body ++ ['"']))
  | num (cs : List Char) : JNum cs → JValTxt cs
  | tru : JValTxt ['t', 'r', 'u', 'e']
  | fls : JValTxt ['f', 'a', 'l', 's', 'e']
  | nul : JValTxt ['n', 'u', 'l', 'l']
  | arrNil : JValTxt ['[', ']']
  | arr (es : List Char) : JElemsTxt es → JValTxt ('[' :: (es ++ [']']))
  | objNil : JValTxt ['\x7b', '\x7d']
  | obj (ms : List Char) : JMembersTxt ms → JValTxt ('\x7b' :: (ms ++ ['\x7d']))

/-- Comma-separated non-empty list of JSON value texts. -/
inductive JElemsTxt : List Char → Prop where
  | one (v : List Char) : JValTxt v → JElemsTxt v
  | cons (v rest : List Char) : JValTxt v → JElemsTxt rest → JElemsTxt (v ++ ',' :: rest)

/-- Comma-separated non-empty list of JSON object members
(`"key":value`). -/
inductive JMembersTxt : List Char → Prop where
  | one (k v : List Char) : JStrBody k → JValTxt v →
      JMembersTxt ('"' :: (k ++ '"' :: ':' :: v))
  | cons (k v rest : List Char) : JStrBody k → JValTxt v → JMembersTxt rest →
      JMembersTxt (('"' :: (k ++ '"' :: ':' :: v)) ++ ',' :: rest)

end

theorem getD_mem {α : Type} (l : List α) (n : Nat) (d : α) (hd : d ∈ l) : l.getD n d ∈ l := by
  rw [List.getD_eq_getElem?_getD]
  cases h : l[n]? with
  | some c => simpa [h] using List.getElem?_mem h
  | none => simpa [h] using hd

theorem hexDigitChar_mem (n : Nat) : hexDigitChar n ∈ jsonHexDigits :=
  getD_mem _ n '0' (by decide)

set_option maxHeartbeats 2000000 in
theorem jsonEscapeChar_strBody (c : Char) (rest : List Char) (h : JStrBody rest) :
    JStrBody (jsonEscapeChar c ++ rest) := by
  unfold jsonEscapeChar
  split_ifs with h1 h2 h3 h4 h5 h6 h7 h8 h9 h10 h11
  · exact JStrBody.esc _ _ (by decide) h
  · exact JStrBody.esc _ _ (by decide) h
  · exact JStrBody.esc _ _ (by decide) h
  · exact JStrBody.esc _ _ (by decide) h
  · exact JStrBody.esc _ _ (by decide) h
  · exact JStrBody.uesc _ _ _ _ _ (by decide) (by decide) (hexDigitChar_mem _)
      (hexDigitChar_mem _) h
  · exact JStrBody.uesc _ _ _ _ _ (by decide) (by decide) (by decide) (by decide) h
  · exact JStrBody.uesc _ _ _ _ _ (by decide) (by decide) (by decide) (by decide) h
  · exact JStrBody.uesc _ _ _ _ _ (by decide) (by decide) (by decide) (by decide) h
  · exact JStrBody.uesc _ _ _ _ _ (by decide) (by decide) (by decide) (by decide) h
  · exact JStrBody.uesc _ _ _ _ _ (by decide) (by decide) (by decide) (by decide) h
  · exact JStrBody.plain c rest h1 h2 (by omega) h

theorem jsonEscapeList_strBody (l : List Char) : JStrBody ((l.map jsonEscapeChar).flatten) := by
  induction l with
  | nil => exact JStrBody.nil
  | cons c rest ih =>
    rw [List.map_cons, List.flatten_cons]
    exact jsonEscapeChar_strBody c _ ih

theorem jsonEscapeString_strBody (s : String) : JStrBody (jsonEscapeString s) :=
  jsonEscapeList_strBody s.toList

theorem natDigits_ne_nil (n : Nat) : natDigits n ≠ [] := by
  rw [natDigits]
  split <;> simp

theorem natDigits_single_ne_zero (n : Nat) (h : n < 10) (h0 : n ≠ 0) :
    ("0123456789".toList).getD n '0' ≠ '0' := by
  interval_cases n
  · exact absurd rfl h0
  all_goals decide

theorem natDigits_eq_singleton_zero (m : Nat) (hc : natDigits m = ['0']) : m = 0 := by
  revert hc
  rw [natDigits]
  split
  · rename_i h
    intro hc
    have hd : ("0123456789".toList).getD m '0' = '0' := by injection hc
    by_contra hm
    exact natDigits_single_ne_zero m h hm hd
  · rename_i h
    intro hc
    have hne := natDigits_ne_nil (m / 10)
    rcases hdl : natDigits (m / 10) with _ | ⟨a, as⟩
    · exact absurd hdl hne
    · rw [hdl] at hc
      have hlen := congrArg List.length hc
      simp at hlen

theorem natDigits_jdigits (n : Nat) : JDigits (natDigits n) := by
  induction n using Nat.strong_induction_on with
  | _ n ih =>
    rw [natDigits]
    split
    · rename_i h
      by_cases h0 : n = 0
      · subst h0
        exact Or.inl rfl
      · exact Or.inr ⟨("0123456789".toList).getD n '0', [], rfl,
          getD_mem _ _ _ (by decide), natDigits_single_ne_zero n h h0,
          fun c hc => absurd hc (by simp)⟩
    · rename_i h
      have hd := ih (n / 10) (Nat.div_lt_self (by omega) (by omega))
      rcases hd with hd0 | ⟨d, rest, heq, hdm, hdz, hrest⟩
      · have h0 : n / 10 = 0 := natDigits_eq_singleton_zero _ hd0
        omega
      · rw [heq]
        refine Or.inr ⟨d, rest ++ [("0123456789".toList).getD (n % 10) '0'],
          rfl, hdm, hdz, fun c hc => ?_⟩
        rcases List.mem_append.mp hc with hcl | hcr
        · exact hrest c hcl
        · have hce : c = ("0123456789".toList).getD (n % 10) '0' := by simpa using hcr
          rw [hce]
          exact getD_mem _ _ _ (by decide)

theorem marshal_num_jnum (i : Int) :
    JNum ((if i < 0 then ['-'] else []) ++ natDigits i.natAbs) := by
  by_cases h : i < 0
  · rw [if_pos h]
    exact JNum.neg _ (natDigits_jdigits i.natAbs)
  · rw [if_neg h]
    exact JNum.pos _ (natDigits_jdigits i.natAbs)

mutual

theorem marshal_jvaltxt (v : Jval) : JValTxt (goJsonMarshal v) := by
  cases v with
  | str s =>
    exact JValTxt.str _ (jsonEscapeString_strBody s)
  | num i =>
    exact JValTxt.num _ (marshal_num_jnum i)
  | bool b =>
    cases b
    · exact JValTxt.fls
    · exact JValTxt.tru
  | null => exact JValTxt.nul
  | arr xs =>
    cases xs with
    | nil => exact JValTxt.arrNil
    | cons x rest =>
      exact JValTxt.arr _ (marshalArr_jelems x rest)
  | obj fs =>
    cases fs with
    | nil => exact JValTxt.objNil
    | cons f rest =>
      exact JValTxt.obj _ (marshalObj_jmembers f rest)
termination_by sizeOf v

theorem marshalArr_jelems (x : Jval) (xs : List Jval) : JElemsTxt (marshalArr (x :: xs)) := by
  cases xs with
  | nil => exact JElemsTxt.one _ (marshal_jvaltxt x)
  | cons y ys =>
    exact JElemsTxt.cons _ _ (marshal_jvaltxt x) (marshalArr_jelems y ys)
termination_by 1 + sizeOf x + sizeOf xs

theorem marshalObj_jmembers (f : String × Jval) (fs : List (String × Jval)) :
    JMembersTxt (marshalObj (f :: fs)) := by
  obtain ⟨k, v⟩ := f
  cases fs with
  | nil => exact JMembersTxt.one _ _ (jsonEscapeString_strBody k) (marshal_jvaltxt v)
  | cons g gs =>
    exact JMembersTxt.cons _ _ _ (jsonEscapeString_strBody k) (marshal_jvaltxt v)
      (marshalObj_jmembers g gs)
termination_by 1 + sizeOf f + sizeOf fs

end

set_option maxHeartbeats 2000000 in
theorem jsonEscapeChar_no_lt (c : Char) : '<' ∉ jsonEscapeChar c := by
  unfold jsonEscapeChar
  split_ifs with h1 h2 h3 h4 h5 h6 h7 h8 h9 h10 h11
  · decide
  · decide
  · decide
  · decide
  · decide
  · intro hm
    have h16a := hexDigitChar_mem (c.toNat / 16)
    have h16b := hexDigitChar_mem (c.toNat % 16)
    simp only [List.mem_cons, List.not_mem_nil, or_false] at hm
    rcases hm with h | h | h | h | h | h
    · exact absurd h (by decide)
    · exact absurd h (by decide)
    · exact absurd h (by decide)
    · exact absurd h (by decide)
    · rw [← h] at h16a
      exact absurd h16a (by decide)
    · rw [← h] at h16b
      exact absurd h16b (by decide)
  · decide
  · decide
  · decide
  · decide
  · decide
  · simp
    exact fun hc => h7 hc.symm

theorem jsonEscapeList_no_lt (l : List Char) : '<' ∉ (l.map jsonEscapeChar).flatten := by
  induction l with
  | nil => simp
  | cons c rest ih =>
    rw [List.map_cons, List.flatten_cons]
    intro hm
    rcases List.mem_append.mp hm with hl | hr
    · exact jsonEscapeChar_no_lt c hl
    · exact ih hr

theorem natDigits_no_lt (n : Nat) : '<' ∉ natDigits n := by
  intro hm
  have hd := natDigits_jdigits n
  rcases hd with h0 | ⟨d, rest, heq, hdm, hdz, hrest⟩
  · rw [h0] at hm
    exact absurd hm (by decide)
  · rw [heq] at hm
    rcases List.mem_cons.mp hm with h | h
    · rw [← h] at hdm
      exact absurd hdm (by decide)
    · have := hrest _ h
      exact absurd this (by decide)

mutual

theorem marshal_no_lt (v : Jval) : '<' ∉ goJsonMarshal v := by
  cases v with
  | str s =>
    show '<' ∉ '"' :: (jsonEscapeString s ++ ['"'])
    intro hm
    rcases List.mem_cons.mp hm with h | h
    · exact absurd h (by decide)
    · rcases List.mem_append.mp h with h2 | h2
      · exact jsonEscapeList_no_lt s.toList h2
      · exact absurd h2 (by decide)
  | num i =>
    show '<' ∉ (if i < 0 then ['-'] else []) ++ natDigits i.natAbs
    intro hm
    rcases List.mem_append.mp hm with h | h
    · revert h
      split <;> decide
    · exact natDigits_no_lt _ h
  | bool b => cases b <;> decide
  | null => decide
  | arr xs =>
    show '<' ∉ '[' :: (marshalArr xs ++ [']'])
    intro hm
    rcases List.mem_cons.mp hm with h | h
    · exact absurd h (by decide)
    · rcases List.mem_append.mp h with h2 | h2
      · exact marshalArr_no_lt xs h2
      · exact absurd h2 (by decide)
  | obj fs =>
    show '<' ∉ '\x7b' :: (marshalObj fs ++ ['\x7d'])
    intro hm
    rcases List.mem_cons.mp hm with h | h
    · exact absurd h (by decide)
    · rcases List.mem_append.mp h with h2 | h2
      · exact marshalObj_no_lt fs h2
      · exact absurd h2 (by decide)
termination_by sizeOf v

theorem marshalArr_no_lt (xs : List Jval) : '<' ∉ marshalArr xs := by
  cases xs with
  | nil => decide
  | cons x rest =>
    cases rest with
    | nil => exact marshal_no_lt x
    | cons y ys =>
      show '<' ∉ goJsonMarshal x ++ ',' :: marshalArr (y :: ys)
      intro hm
      rcases List.mem_append.mp hm with h | h
      · exact marshal_no_lt x h
      · rcases List.mem_cons.mp h with h2 | h2
        · exact absurd h2 (by decide)
        · exact marshalArr_no_lt (y :: ys) h2
termination_by sizeOf xs

theorem marshalObj_no_lt (fs : List (String × Jval)) : '<' ∉ marshalObj fs := by
  cases fs with
  | nil => decide
  | cons f rest =>
    obtain ⟨k, v⟩ := f
    have hhead : '<' ∉ '"' :: (jsonEscapeString k ++ '"' :: ':' :: goJsonMarshal v) := by
      intro hm
      rcases List.mem_cons.mp hm with h | h
      · exact absurd h (by decide)
      · rcases List.mem_append.mp h with h2 | h2
        · exact jsonEscapeList_no_lt k.toList h2
        · rcases List.mem_cons.mp h2 with h3 | h3
          · exact absurd h3 (by decide)
          · rcases List.mem_cons.mp h3 with h4 | h4
            · exact absurd h4 (by decide)
            · exact marshal_no_lt v h4
    cases rest with
    | nil => exact hhead
    | cons g gs =>
      show '<' ∉ ('"' :: (jsonEscapeString k ++ '"' :: ':' :: goJsonMarshal v))
          ++ ',' :: marshalObj (g :: gs)
      intro hm
      rcases List.mem_append.mp hm with h | h
      · exact hhead h
      · rcases List.mem_cons.mp h with h2 | h2
        · exact absurd h2 (by decide)
        · exact marshalObj_no_lt (g :: gs) h2
termination_by sizeOf fs

end

/-- Claim C9: every value injected into the script block is serialised by
`json.Marshal` as syntactically valid JSON text, that text never contains
the character `<` at all (Go's HTML escaping turns it into `<`), and in
particular the literal sequence `</script>` can never appear inside the
serialised value — premature script termination through a value is
impossible.  (`scriptBlock` embeds exactly this serialisation for each
side-channel entry.) -/
theorem c9_script_values_safe_json (v : Jval) :
    JValTxt (goJsonMarshal v)
    ∧ '<' ∉ goJsonMarshal v
    ∧ ¬ ("</script>".toList <:+: goJsonMarshal v) := by
  refine ⟨marshal_jvaltxt v, marshal_no_lt v, fun hinf => ?_⟩
  exact marshal_no_lt v (hinf.subset (by decide))

theorem insertRecord_overwrite (u c1 c2 : String) (l : List (String × String)) :
    insertRecord u c2 (insertRecord u c1 l) = insertRecord u c2 l := by
  induction l with
  | nil => simp [insertRecord]
  | cons r rs ih =>
    by_cases h1 : u = r.1
    · rw [show insertRecord u c1 (r :: rs) = (u, c1) :: rs from by
        simp only [insertRecord]; rw [if_pos h1]]
      rw [show insertRecord u c2 ((u, c1) :: rs) = (u, c2) :: rs from by
        simp only [insertRecord]; simp]
      rw [show insertRecord u c2 (r :: rs) = (u, c2) :: rs from by
        simp only [insertRecord]; rw [if_pos h1]]
    · by_cases h2 : u < r.1
      · rw [show insertRecord u c1 (r :: rs) = (u, c1) :: r :: rs from by
          simp only [insertRecord]; rw [if_neg h1, if_pos h2]]
        rw [show insertRecord u c2 ((u, c1) :: r :: rs) = (u, c2) :: r :: rs from by
          simp only [insertRecord]; simp]
        rw [show insertRecord u c2 (r :: rs) = (u, c2) :: r :: rs from by
          simp only [insertRecord]; rw [if_neg h1, if_pos h2]]
      · rw [show insertRecord u c1 (r :: rs) = r :: insertRecord u c1 rs from by
          simp only [insertRecord]; rw [if_neg h1, if_neg h2]]
        rw [show insertRecord u c2 (r :: insertRecord u c1 rs)
            = r :: insertRecord u c2 (insertRecord u c1 rs) from by
          simp only [insertRecord]; rw [if_neg h1, if_neg h2]]
        rw [show insertRecord u c2 (r :: rs) = r :: insertRecord u c2 rs from by
          simp only [insertRecord]; rw [if_neg h1, if_neg h2]]
        rw [ih]

theorem flatten_byteHex_length (bs : List Nat) :
    ((bs.map byteHex).flatten).length = 2 * bs.length := by
  induction bs with
  | nil => simp
  | cons b rest ih =>
    rw [List.map_cons, List.flatten_cons, List.length_append, ih]
    simp [byteHex]
    omega

theorem md5Bytes_length (msg : List Nat) : (md5Bytes msg).length = 16 := by
  unfold md5Bytes le4
  simp

theorem generateUUID_length (pid : Nat) : (generateUUID pid).length = 32 := by
  unfold generateUUID md5Hex
  show ((md5Bytes _).map byteHex).flatten.length = 32
  rw [flatten_byteHex_length, md5Bytes_length]

theorem getOrGenerateDesign_fresh (pid : Nat) (st : CacheState) (p : String)
    (h1 : (p.utf8ByteSize == 32 && dirExists st p) = false)
    (h2 : findPromptMatch st p = none) :
    getOrGenerateDesign pid st p
      = (generateUUID pid, ⟨insertRecord (generateUUID pid) p st.records⟩) := by
  unfold getOrGenerateDesign
  rw [if_neg (by rw [h1]; simp), h2]

/-- Claim C10: `generateUUID` is the MD5 hex digest of the process id — a
32-character string that is the same on every call within one process — so
when two distinct prompts each trigger fresh design generation in the same
process, both generations use the same cache directory and the second
overwrites the first's record (its prompt file and template files). -/
theorem c10_uuid_constant_and_overwrite (pid : Nat) (st : CacheState) (p1 p2 : String)
    (h1 : (p1.utf8ByteSize == 32 && dirExists st p1) = false)
    (h2 : findPromptMatch st p1 = none)
    (h3 : (p2.utf8ByteSize == 32
        && dirExists (getOrGenerateDesign pid st p1).2 p2) = false)
    (h4 : findPromptMatch (getOrGenerateDesign pid st p1).2 p2 = none) :
    (getOrGenerateDesign pid st p1).1 = generateUUID pid
    ∧ (getOrGenerateDesign pid (getOrGenerateDesign pid st p1).2 p2).1 = generateUUID pid
    ∧ (getOrGenerateDesign pid (getOrGenerateDesign pid st p1).2 p2).2.records
        = insertRecord (generateUUID pid) p2 st.records
    ∧ (generateUUID pid).length = 32 := by
  have hfst := getOrGenerateDesign_fresh pid st p1 h1 h2
  have hsnd := getOrGenerateDesign_fresh pid (getOrGenerateDesign pid st p1).2 p2 h3 h4
  refine ⟨by rw [hfst], by rw [hsnd], ?_, generateUUID_length pid⟩
  rw [hsnd]
  show insertRecord (generateUUID pid) p2 (getOrGenerateDesign pid st p1).2.records = _
  rw [hfst]
  exact insertRecord_overwrite (generateUUID pid) p1 p2 st.records

theorem c10_uuid_constant_and_overwrite_witness :
    (getOrGenerateDesign 7 ⟨[]⟩ "alpha").1 = generateUUID 7
    ∧ (getOrGenerateDesign 7 (getOrGenerateDesign 7 ⟨[]⟩ "alpha").2 "beta").1 = generateUUID 7
    ∧ (getOrGenerateDesign 7 (getOrGenerateDesign 7 ⟨[]⟩ "alpha").2 "beta").2.records
        = insertRecord (generateUUID 7) "beta" []
    ∧ (generateUUID 7).length = 32 :=
  c10_uuid_constant_and_overwrite 7 ⟨[]⟩ "alpha" "beta" (by decide) rfl (by decide) rfl
